import Mathlib

/-!
Verification development for a Python mimic of the Unix `find` command
(`src/project/find.py`).  The core of the program is a recursive-descent
parser that simultaneously parses and evaluates a flat token stream once
per visited filesystem entry, together with a traversal engine driving it.

The shallow embedding below mirrors the source:

* the shared mutable cursor `self.pos` becomes an explicit position `p : Nat`
  threaded through the parse functions;
* side effects (print, delete, spawned commands) are collected in a writer
  style list of `Eff`; additions to the prune set are collected likewise;
* raised exceptions (`ValueError` from syntax errors) become `PRes.err`;
  `sys.exit` (from `-quit`, or the fatal `-newer` reference lookup) becomes
  `PRes.fatal`;
* filesystem metadata queries performed by the individual predicate bodies
  are abstracted into an environment `Env` (the spec's external Metadata
  Provider); the predicate bodies whose arithmetic the claims are about
  (`_compare_num`, `_test_size`, `_test_time`, `_test_newer`, ...)
  are embedded concretely further below;
* Python's unbounded recursion is modelled with a fuel parameter; every
  recursive call consumes one unit, so the definitions are structural and
  evaluate inside the kernel.
-/

namespace FindMimic

/-- Observable side effects of actions (output, deletion, spawned commands).
`_action_ls`'s formatted output line is abstracted to the path it lists. -/
inductive Eff where
  | print (s : String)
  | print0 (s : String)
  | ls (s : String)
  | delete (s : String)
  | spawn (args : List (Option String))
deriving DecidableEq, BEq

/-- Result of a parse call: `ok result cursorPos effects pruneAdditions`,
a raised `ValueError` (`err`), a `sys.exit` (`fatal`), or fuel exhaustion
(`nofuel`, a model artifact — Python recursion is unbounded). -/
inductive PRes where
  | ok (b : Bool) (pos : Nat) (eff : List Eff) (prunes : List String)
  | err
  | fatal
  | nofuel
deriving DecidableEq

/-- The per-entry evaluation environment: the entry's path, whether it is a
directory (`os.path.isdir`, read by `_action_prune`), the answer of the
interactive `-ok` prompt, and the external Metadata Provider: the boolean
result of each filesystem-dependent test, whether the test raises an
exception (`ValueError` etc.), and whether it performs a fatal `sys.exit`
(only the `-newer` family does, when its reference file is missing). -/
structure Env where
  path : String
  isDir : Bool
  confirm : Bool
  test : String → List (Option String) → Bool
  testErr : String → List (Option String) → Bool
  testFatal : String → List (Option String) → Bool

/-- Keys of the `_tests` dispatch table. -/
def testNames : List String :=
  ["-name", "-iname", "-path", "-wholename", "-ipath", "-iwholename",
   "-regex", "-iregex", "-type", "-perm", "-size", "-mtime", "-atime",
   "-ctime", "-mmin", "-amin", "-cmin", "-empty", "-links", "-inum",
   "-newer", "-anewer", "-cnewer", "-readable", "-writable",
   "-executable", "-true", "-false"]

/-- Keys of the `_actions` dispatch table. -/
def actionNames : List String :=
  ["-print", "-print0", "-ls", "-delete", "-exec", "-ok", "-execdir",
   "-okdir", "-prune", "-quit"]

/-- `_get_num_args`: the `one_arg_ops` list (note that it names `-user` and
`-group`, which are not in `_tests`, and omits `-wholename`/`-iwholename`,
exactly as the source does). -/
def oneArgOps : List String :=
  ["-name", "-iname", "-path", "-ipath", "-regex", "-iregex", "-type",
   "-perm", "-user", "-group", "-size", "-mtime", "-atime", "-ctime",
   "-mmin", "-amin", "-cmin", "-links", "-inum", "-newer", "-anewer",
   "-cnewer"]

def numArgs (op : String) : Nat := if op ∈ oneArgOps then 1 else 0

/-- `[self._consume() for _ in range(n)]`: `_consume` at end of stream
returns `None` and does not advance the cursor. Returns the collected
arguments and the new cursor position. -/
def consumeCount (ts : List String) (p : Nat) : Nat → List (Option String) × Nat
  | 0 => ([], p)
  | n + 1 =>
    match ts[p]? with
    | some a =>
      let (rest, q) := consumeCount ts (p + 1) n
      (some a :: rest, q)
    | none =>
      let (rest, q) := consumeCount ts p n
      (none :: rest, q)

/-- The `-exec` family argument loop: collect tokens strictly before the
first `;`, fail (`ValueError`) if the stream ends first.  Returns the
arguments and the number of tokens consumed (arguments plus the `;`). -/
def collectUntilSemi : List String → Option (List String × Nat)
  | [] => none
  | t :: ts =>
    if t = ";" then some ([], 1)
    else
      match collectUntilSemi ts with
      | none => none
      | some (args, n) => some (t :: args, n + 1)

/-- Outcome of invoking a test or action body: a boolean plus effects, an
exception, or a `sys.exit`. -/
inductive ARes where
  | ok (b : Bool) (eff : List Eff) (prunes : List String)
  | err
  | fatal
deriving DecidableEq

/-- Dispatch through `_tests`: `_test_true` / `_test_false` are constant;
the `-newer` family may `sys.exit` when the reference file is missing; any
other test body may raise (e.g. `int()` on a malformed argument) or return
a boolean, as the Metadata Provider environment dictates. -/
def testOutcome (env : Env) (t : String) (args : List (Option String)) : ARes :=
  if t = "-true" then .ok true [] []
  else if t = "-false" then .ok false [] []
  else if (t = "-newer" ∨ t = "-anewer" ∨ t = "-cnewer") ∧ env.testFatal t args then .fatal
  else if env.testErr t args then .err
  else .ok (env.test t args) [] []

/-- Dispatch through `_actions`.  Every action body in the source returns
`True`; `-prune` adds the path to the prune set when it is a directory;
`-quit` calls `sys.exit(0)`.  The `-ok`/`-okdir` prompt answer is the
environment's `confirm`; a declined prompt spawns nothing and still
returns `True`. -/
def runAction (env : Env) (name : String) (args : List (Option String)) : ARes :=
  match name with
  | "-print" => .ok true [.print env.path] []
  | "-print0" => .ok true [.print0 env.path] []
  | "-ls" => .ok true [.ls env.path] []
  | "-delete" => .ok true [.delete env.path] []
  | "-exec" => .ok true [.spawn args] []
  | "-execdir" => .ok true [.spawn args] []
  | "-ok" => .ok true (if env.confirm then [.spawn args] else []) []
  | "-okdir" => .ok true (if env.confirm then [.spawn args] else []) []
  | "-prune" => .ok true [] (if env.isDir then [env.path] else [])
  | "-quit" => .fatal
  | _ => .err

/-- Sequencing of two parse steps: on success the second step starts at the
returned cursor position and the effect and prune lists are appended. -/
def PRes.andThen (r : PRes) (k : Bool → Nat → PRes) : PRes :=
  match r with
  | .ok b p e pr =>
    match k b p with
    | .ok b' p' e' pr' => .ok b' p' (e ++ e') (pr ++ pr')
    | x => x
  | x => x

mutual

/-- `_parse_or_expr` — always evaluates actively (it has no `evaluate`
parameter in the source). -/
def parseOr (env : Env) (ts : List String) : Nat → Nat → PRes
  | 0, _ => .nofuel
  | f + 1, p => (parseAnd env ts f true p).andThen fun left p₁ => orLoop env ts f left p₁
termination_by structural f p => f

/-- The `while self._peek() in ('-o', '-or')` loop of `_parse_or_expr`.
When the running result is true the right operand is consumed in
suppressed mode and the loop returns `True` immediately. -/
def orLoop (env : Env) (ts : List String) : Nat → Bool → Nat → PRes
  | 0, _, _ => .nofuel
  | f + 1, left, p =>
    if ts[p]? = some "-o" ∨ ts[p]? = some "-or" then
      if left then
        (parseAnd env ts f false (p + 1)).andThen fun _ p₂ => .ok true p₂ [] []
      else
        (parseAnd env ts f true (p + 1)).andThen fun r p₂ => orLoop env ts f (left || r) p₂
    else .ok left p [] []
termination_by structural f left p => f

/-- `_parse_and_expr`. -/
def parseAnd (env : Env) (ts : List String) : Nat → Bool → Nat → PRes
  | 0, _, _ => .nofuel
  | f + 1, ev, p => (parseNot env ts f ev p).andThen fun left p₁ => andLoop env ts f ev left p₁
termination_by structural f ev p => f

/-- The `while` loop of `_parse_and_expr`: continues while the next token
is neither the end of the stream nor one of `-o`, `-or`, `)`, `,`; an
explicit `-a`/`-and` token is consumed; once suppressed or false, each
operand is parsed in suppressed mode and the result pinned to `False`. -/
def andLoop (env : Env) (ts : List String) : Nat → Bool → Bool → Nat → PRes
  | 0, _, _, _ => .nofuel
  | f + 1, ev, left, p =>
    match ts[p]? with
    | none => .ok left p [] []
    | some t =>
      if t = "-o" ∨ t = "-or" ∨ t = ")" ∨ t = "," then .ok left p [] []
      else
        let p₁ := if t = "-a" ∨ t = "-and" then p + 1 else p
        if !ev || !left then
          (parseNot env ts f false p₁).andThen fun _ p₂ => andLoop env ts f ev false p₂
        else
          (parseNot env ts f true p₁).andThen fun r p₂ => andLoop env ts f ev (left && r) p₂
termination_by structural f ev left p => f

/-- `_parse_not_expr`. -/
def parseNot (env : Env) (ts : List String) : Nat → Bool → Nat → PRes
  | 0, _, _ => .nofuel
  | f + 1, ev, p =>
    if ts[p]? = some "!" ∨ ts[p]? = some "-not" then
      if !ev then
        (parsePrim env ts f false (p + 1)).andThen fun _ p₂ => .ok false p₂ [] []
      else
        (parsePrim env ts f true (p + 1)).andThen fun b p₂ => .ok (!b) p₂ [] []
    else parsePrim env ts f ev p
termination_by structural f ev p => f

/-- `_parse_primary`: parentheses (note: the inner group is parsed by
`_parse_or_expr`, which always evaluates actively, regardless of the
`evaluate` flag — exactly as the source does), tests, actions (the
`-exec` family consumes arguments up to a literal `;`), end of stream
treated as satisfied, and unknown tokens raising `ValueError`. -/
def parsePrim (env : Env) (ts : List String) : Nat → Bool → Nat → PRes
  | 0, _, _ => .nofuel
  | f + 1, ev, p =>
    match ts[p]? with
    | none => .ok true p [] []
    | some t =>
      if t = "(" then
        (parseOr env ts f (p + 1)).andThen fun res p₁ =>
          if ts[p₁]? = some ")" then .ok res (p₁ + 1) [] [] else .err
      else if t ∈ testNames then
        let (args, p₁) := consumeCount ts (p + 1) (numArgs t)
        if ev then
          match testOutcome env t args with
          | .ok b e pr => .ok b p₁ e pr
          | .err => .err
          | .fatal => .fatal
        else .ok true p₁ [] []
      else if t ∈ actionNames then
        if t = "-exec" ∨ t = "-ok" ∨ t = "-execdir" ∨ t = "-okdir" then
          match collectUntilSemi (ts.drop (p + 1)) with
          | none => .err
          | some (args, n) =>
            if ev then
              match runAction env t (args.map some) with
              | .ok b e pr => .ok b (p + 1 + n) e pr
              | .err => .err
              | .fatal => .fatal
            else .ok true (p + 1 + n) [] []
        else
          let (args, p₁) := consumeCount ts (p + 1) (numArgs t)
          if ev then
            match runAction env t args with
            | .ok b e pr => .ok b p₁ e pr
            | .err => .err
            | .fatal => .fatal
          else .ok true p₁ [] []
      else .err
termination_by structural f ev p => f

end

/-- `_evaluate_expression`: reset the cursor to 0 and parse an or-expression. -/
def evalTokens (env : Env) (ts : List String) (fuel : Nat) : PRes :=
  parseOr env ts fuel 0

/-! ### Concrete predicate bodies

The individual test helpers of the source whose arithmetic the claims are
about, embedded over `List Char` (Python strings) and integer seconds.
Metadata lookups (`os.stat`/`os.lstat`) appear as `Option` arguments:
`none` models `FileNotFoundError` for the looked-up path. -/

/-- Digit-string evaluation underlying Python `int()`: accumulates decimal
digits, fails on any non-digit character. -/
def digitsVal : List Char → Nat → Option Nat
  | [], acc => some acc
  | c :: cs, acc => if c.isDigit then digitsVal cs (acc * 10 + (c.toNat - 48)) else none

/-- Python `int(s)` for the sign-stripped strings the program feeds it:
raises (`none`) on an empty string or any non-digit character. -/
def parseDigits : List Char → Option Nat
  | [] => none
  | cs => digitsVal cs 0

/-- Python `int(s, 8)` digit evaluation (octal, for `-perm`). -/
def octalVal : List Char → Nat → Option Nat
  | [], acc => some acc
  | c :: cs, acc =>
    if '0' ≤ c ∧ c ≤ '7' then octalVal cs (acc * 8 + (c.toNat - 48)) else none

/-- Python `int(s, 8)`. -/
def parseOctal : List Char → Option Nat
  | [] => none
  | cs => octalVal cs 0

/-- `size_str[-1]` (raises `IndexError` on an empty string, hence `Option`). -/
def lastChar : List Char → Option Char
  | [] => none
  | [c] => some c
  | _ :: c :: cs => lastChar (c :: cs)

/-- `_compare_num(val, target_str)`: strip one leading `+` or `-` sign,
parse the rest with `int()` (`none` models `ValueError`), then compare:
`+N` strictly greater, `-N` strictly less, no sign exact equality. -/
def compare_num (val : Int) (targetStr : List Char) : Option Bool :=
  match targetStr with
  | c :: cs =>
    if c = '+' ∨ c = '-' then
      match parseDigits cs with
      | none => none
      | some t =>
        if c = '+' then some (decide (val > (t : Int)))
        else some (decide (val < (t : Int)))
    else
      match parseDigits targetStr with
      | none => none
      | some t => some (decide (val = (t : Int)))
  | [] =>
    match parseDigits [] with
    | none => none
    | some t => some (decide (val = (t : Int)))

/-- `_test_size(path, size_str)`: read the unit suffix (default 512-byte
blocks), look up `os.lstat(path).st_size` (`none` → `False`), strip all
leading signs with `lstrip('+-')`, parse the target with `int()`, round the
file size up to whole blocks, and apply the signed-`N` rule. -/
def test_size (st : Option Nat) (sizeStr : List Char) : Option Bool :=
  match lastChar sizeStr with
  | none => none
  | some u =>
    let isUnit := u == 'c' || u == 'w' || u == 'k' || u == 'M' || u == 'G'
    let valStr := if isUnit then sizeStr.dropLast else sizeStr
    let mult : Nat :=
      if isUnit then
        if u == 'c' then 1 else if u == 'w' then 2 else if u == 'k' then 1024
        else if u == 'M' then 1024 * 1024 else 1024 * 1024 * 1024
      else 512
    match st with
    | none => some false
    | some fileSize =>
      let numeric := valStr.dropWhile fun c => c == '+' || c == '-'
      match parseDigits numeric with
      | none => none
      | some target =>
        let sign : Option Char :=
          match valStr with
          | c :: _ => if c = '+' ∨ c = '-' then some c else none
          | [] => none
        let fileBlocks := (fileSize + mult - 1) / mult
        if sign = some '+' then some (decide (fileBlocks > target))
        else if sign = some '-' then some (decide (fileBlocks < target))
        else some (decide (fileBlocks = target))

/-- `_test_time(path, time_str, attr, unit_multiplier)`: `now` is the value
`datetime.now()` returned for THIS invocation (the function samples the
clock itself, every time it is called); `daystart` replaces it by local
midnight (an external calendar computation, abstracted as `midnight`);
a missing entry stat is a non-match; the age in seconds is divided by the
unit and truncated toward zero (`int()`), then compared by `_compare_num`.
Times are modelled in whole seconds. -/
def test_time (daystart : Bool) (midnight : Int → Int) (now0 : Int)
    (stat : Option Int) (timeStr : List Char) (unitMult : Int) : Option Bool :=
  let now := if daystart then midnight now0 else now0
  match stat with
  | none => some false
  | some fileTime => compare_num (Int.tdiv (now - fileTime) unitMult) timeStr

/-- Result of `_test_newer`: a boolean, or `sys.exit(code)`. -/
inductive NewerRes where
  | val (b : Bool)
  | exitCode (n : Nat)
deriving DecidableEq

/-- `_test_newer(path, file)`: stat the reference file first, then the
entry; a `FileNotFoundError` from either lookup (the single `try` block
covers both) prints to stderr and calls `sys.exit(1)` — the whole run
terminates.  `-anewer`/`-cnewer` differ only in the timestamp attribute. -/
def test_newer (refStat : Option Int) (entryStat : Option Int) : NewerRes :=
  match refStat with
  | none => .exitCode 1
  | some r =>
    match entryStat with
    | none => .exitCode 1
    | some p => .val (decide (p > r))

/-- `_test_type`: the entry's actual type is abstracted as its `find` type
letter (`none` models a vanished entry → non-match); the test succeeds if
any requested character is a known type letter matching the entry. -/
def test_type (st : Option Char) (typeChars : List Char) : Bool :=
  match st with
  | none => false
  | some t =>
    typeChars.any fun c =>
      (c == 'b' || c == 'c' || c == 'd' || c == 'p' || c == 'f' || c == 'l' || c == 's') && c == t

/-- `_test_perm`: stat first (`none` → `False`), then the three modes:
leading `-` all listed bits set, leading `/` any listed bit set, otherwise
exact equality of the permission bits. -/
def test_perm (st : Option Nat) (modeStr : List Char) : Option Bool :=
  match st with
  | none => some false
  | some fileMode =>
    match modeStr with
    | '-' :: rest =>
      match parseOctal rest with
      | none => none
      | some m => some (decide (fileMode &&& m = m))
    | '/' :: rest =>
      match parseOctal rest with
      | none => none
      | some m => some (decide (fileMode &&& m ≠ 0))
    | other =>
      match parseOctal other with
      | none => none
      | some m => some (decide (fileMode = m))

/-- `_test_links`: `os.stat` fails → `False`; otherwise `_compare_num` on
the link count (whose `ValueError` on a malformed argument propagates). -/
def test_links (st : Option Int) (n : List Char) : Option Bool :=
  match st with
  | none => some false
  | some v => compare_num v n

/-- `_test_inum`, same shape as `_test_links`. -/
def test_inum (st : Option Int) (n : List Char) : Option Bool :=
  match st with
  | none => some false
  | some v => compare_num v n

/-- The metadata `_test_empty` reads: directory-ness, regular-file-ness,
size, and whether `os.listdir` came back empty. -/
structure EmptyStat where
  isDir : Bool
  isReg : Bool
  size : Nat
  dirEmpty : Bool

/-- `_test_empty`: a failed `os.lstat`/`os.listdir` is a non-match; a
directory is empty iff `os.listdir` is empty; otherwise the entry must be
a regular file of size 0. -/
def test_empty (st : Option EmptyStat) : Bool :=
  match st with
  | none => false
  | some s => if s.isDir then s.dirEmpty else s.isReg && s.size == 0

/-- One run's worth of age-predicate invocations as the code performs them:
the `i`-th invocation of `_test_time` calls `datetime.now()` itself and
receives the `i`-th clock sample. -/
def agePredicateCalls (nowSamples : List Int) (daystart : Bool) (midnight : Int → Int)
    (stat : Option Int) (args : List (List Char)) (unitMult : Int) : List (Option Bool) :=
  List.zipWith (fun now a => test_time daystart midnight now stat a unitMult) nowSamples args

/-- Modelled from the spec: "Evaluation time is fixed at run start (or
shifted to local midnight if daystart is set) — not re-sampled per entry".
Every invocation in the run compares against the single time `t0`. -/
def specFixedAgeCalls (t0 : Int) (daystart : Bool) (midnight : Int → Int)
    (stat : Option Int) (args : List (List Char)) (unitMult : Int) : List (Option Bool) :=
  args.map fun a => test_time daystart midnight t0 stat a unitMult

/-! ### The traversal engine

`_walk` drives `os.walk` (pre-order `topdown=True` with in-place `dirs`
editing, or post-order `topdown=False`), computes depth by counting path
separators, applies the depth bounds, and evaluates the expression per
entry.  The filesystem is a static tree of named files and directories;
the walk is fueled (structurally recursive) so concrete runs evaluate in
the kernel. -/

/-- A filesystem subtree: `os.walk` distinguishes only files and
directories (symlinks are out of scope for the claims). -/
inductive FS where
  | file (name : String)
  | dir (name : String) (children : List FS)

def FS.name : FS → String
  | .file n => n
  | .dir n _ => n

def FS.isDir : FS → Bool
  | .file _ => false
  | .dir _ _ => true

/-- `os.path.join` with `/`. -/
def joinPath (p n : String) : String := p ++ "/" ++ n

/-- `path.count(os.sep)`. -/
def countSep (s : String) : Nat := s.data.countP fun c => c == '/'

/-- `current_level <= max_depth` where `maxdepth` may be `float('inf')`. -/
def lvlLe (l : Nat) : Option Nat → Bool
  | none => true
  | some m => decide (l ≤ m)

/-- `current_level < max_depth` where `maxdepth` may be `float('inf')`. -/
def lvlLt (l : Nat) : Option Nat → Bool
  | none => true
  | some m => decide (l < m)

/-- Run state threaded through a walk: emitted effects and the prune set
(`self.prune_paths`, insertion-ordered with set semantics). -/
structure WSt where
  out : List Eff
  pruned : List String
deriving DecidableEq

/-- `set.add`. -/
def addPrune (ps : List String) (x : String) : List String :=
  if ps.contains x then ps else ps ++ [x]

def addPrunes : List String → List String → List String
  | ps, [] => ps
  | ps, x :: xs => addPrunes (addPrune ps x) xs

/-- The Metadata Provider for a whole walk: per-path answers for the
filesystem-dependent tests. -/
structure World where
  test : String → String → List (Option String) → Bool
  testErr : String → String → List (Option String) → Bool
  testFatal : String → String → List (Option String) → Bool
  confirm : Bool

def envAt (w : World) (path : String) (isDir : Bool) : Env :=
  { path := path, isDir := isDir, confirm := w.confirm,
    test := w.test path, testErr := w.testErr path, testFatal := w.testFatal path }

/-- `self.pos = 0; self._evaluate_expression(path)`: one active parse pass
over the whole token stream for one entry.  A raised exception or
`sys.exit` aborts the run (`none`); otherwise the result boolean is
returned and the effects and prune additions are folded into the state. -/
def evalEntry (w : World) (ts : List String) (path : String) (isDir : Bool)
    (st : WSt) : Option (Bool × WSt) :=
  match parseOr (envAt w path isDir) ts (8 * ts.length + 16) 0 with
  | .ok b _ e pr => some (b, ⟨st.out ++ e, addPrunes st.pruned pr⟩)
  | _ => none

/-- Evaluate the expression against a list of entries in order
(`(path, isdir)` pairs), aborting the run on the first exception. -/
def evalSeq (w : World) (ts : List String) : List (String × Bool) → WSt → Option WSt
  | [], st => some st
  | (p, d) :: rest, st =>
    match evalEntry w ts p d st with
    | none => none
    | some (_, st') => evalSeq w ts rest st'

mutual

/-- One `os.walk(..., topdown=True)` iteration of the pre-order branch of
`_walk`, for the triple rooted at `path` (a directory): filter `dirs`
against the prune set, evaluate the root when its depth is in bounds
(stopping the descent entirely when the evaluation pruned it), then under
`current_level < max_depth` evaluate files and subdirectories at depth
`level+1`, and finally descend into the filtered `dirs` list (which the
child-scan prune additions of lines 157-165 do NOT re-filter). -/
def walkPreAux (w : World) (ts : List String) (minD : Nat) (maxD : Option Nat)
    (startLev : Nat) : Nat → FS → String → WSt → Option WSt
  | 0, _, _, _ => none
  | _ + 1, .file _, _, st => some st
  | fu + 1, .dir _ children, path, st =>
    let files := children.filter fun c => !c.isDir
    let dirs1 := (children.filter FS.isDir).filter fun d =>
      !st.pruned.contains (joinPath path d.name)
    let lvl := countSep path - startLev
    let proceed : WSt → Option WSt := fun st' =>
      if lvlLt lvl maxD then
        let fileEntries :=
          if decide (minD ≤ lvl + 1) then files.map fun c => (joinPath path c.name, false)
          else []
        let dirEntries :=
          if decide (minD ≤ lvl + 1) then dirs1.map fun c => (joinPath path c.name, true)
          else []
        match evalSeq w ts fileEntries st' with
        | none => none
        | some st₂ =>
          match evalSeq w ts dirEntries st₂ with
          | none => none
          | some st₃ => walkPreList w ts minD maxD startLev fu dirs1 path st₃
      else some st'
    if decide (minD ≤ lvl) && lvlLe lvl maxD then
      match evalEntry w ts path true st with
      | none => none
      | some (b, st₁) =>
        if b && st₁.pruned.contains path then some st₁ else proceed st₁
    else proceed st
termination_by structural fu node path st => fu

/-- Descend into the directories a pre-order iteration left in `dirs`. -/
def walkPreList (w : World) (ts : List String) (minD : Nat) (maxD : Option Nat)
    (startLev : Nat) : Nat → List FS → String → WSt → Option WSt
  | 0, _, _, _ => none
  | _ + 1, [], _, st => some st
  | fu + 1, d :: ds, parent, st =>
    match walkPreAux w ts minD maxD startLev fu d (joinPath parent d.name) st with
    | none => none
    | some st' => walkPreList w ts minD maxD startLev fu ds parent st'
termination_by structural fu l parent st => fu

end

mutual

/-- The post-order branch of `_walk`: `os.walk(..., topdown=False)` yields
children subtrees before the parent triple; for each triple, files are
evaluated under `level+1 ≥ mindepth ∧ level < maxdepth` and subdirectories
under `level ≥ mindepth ∧ level < maxdepth` (the parent's level, exactly
as the source compares it). -/
def walkPostAux (w : World) (ts : List String) (minD : Nat) (maxD : Option Nat)
    (startLev : Nat) : Nat → FS → String → WSt → Option WSt
  | 0, _, _, _ => none
  | _ + 1, .file _, _, st => some st
  | fu + 1, .dir _ children, path, st =>
    let files := children.filter fun c => !c.isDir
    let dirs := children.filter FS.isDir
    match walkPostList w ts minD maxD startLev fu dirs path st with
    | none => none
    | some st₁ =>
      let lvl := countSep path - startLev
      let fileEntries :=
        if decide (minD ≤ lvl + 1) && lvlLt lvl maxD then
          files.map fun c => (joinPath path c.name, false)
        else []
      let dirEntries :=
        if decide (minD ≤ lvl) && lvlLt lvl maxD then
          dirs.map fun c => (joinPath path c.name, true)
        else []
      match evalSeq w ts fileEntries st₁ with
      | none => none
      | some st₂ => evalSeq w ts dirEntries st₂
termination_by structural fu node path st => fu

def walkPostList (w : World) (ts : List String) (minD : Nat) (maxD : Option Nat)
    (startLev : Nat) : Nat → List FS → String → WSt → Option WSt
  | 0, _, _, _ => none
  | _ + 1, [], _, st => some st
  | fu + 1, d :: ds, parent, st =>
    match walkPostAux w ts minD maxD startLev fu d (joinPath parent d.name) st with
    | none => none
    | some st' => walkPostList w ts minD maxD startLev fu ds parent st'
termination_by structural fu l parent st => fu

end

/-- A whole pre-order run over one root path. -/
def runFindPre (w : World) (ts : List String) (minD : Nat) (maxD : Option Nat)
    (root : FS) (startPath : String) (fu : Nat) : Option WSt :=
  walkPreAux w ts minD maxD (countSep startPath) fu root startPath ⟨[], []⟩

/-- A whole post-order run over one root path: the bottom-up walk, then
the start path itself when `mindepth == 0`. -/
def runFindPost (w : World) (ts : List String) (minD : Nat) (maxD : Option Nat)
    (root : FS) (startPath : String) (fu : Nat) : Option WSt :=
  match walkPostAux w ts minD maxD (countSep startPath) fu root startPath ⟨[], []⟩ with
  | none => none
  | some st =>
    if minD = 0 then
      match evalEntry w ts startPath root.isDir st with
      | none => none
      | some (_, st') => some st'
    else some st

/-! ### Concrete instances used by the theorems -/

/-- A single-entry environment: entry path `x`, a directory, every
filesystem-dependent test answering `false` and never failing. -/
def cenvX : Env :=
  { path := "x", isDir := true, confirm := false,
    test := fun _ _ => false, testErr := fun _ _ => false, testFatal := fun _ _ => false }

/-- Entry `d`, a directory, for exercising `-prune`. -/
def penvD : Env := { cenvX with path := "d" }

/-- `os.path.basename`. -/
def basenameAux : List Char → List Char → List Char
  | [], acc => acc.reverse
  | c :: cs, acc => if c = '/' then basenameAux cs [] else basenameAux cs (c :: acc)

def basenameStr (s : String) : String := String.mk (basenameAux s.data [])

/-- A world where every filesystem-dependent test answers `false` and no
metadata lookup ever raises or exits. -/
def wNone : World :=
  { test := fun _ _ _ => false, testErr := fun _ _ _ => false,
    testFatal := fun _ _ _ => false, confirm := false }

/-- A world interpreting `-name pat` as basename equality (what `fnmatch`
computes for a pattern without wildcard characters), everything else
`false`. -/
def wName : World :=
  { wNone with
    test := fun path name args =>
      match name, args with
      | "-name", [some pat] => basenameStr path == pat
      | _, _ => false }

/-- A world in which the `-newer` family's reference-file lookup fails,
making `_test_newer` call `sys.exit(1)`. -/
def wPanic : World := { wNone with testFatal := fun _ _ _ => true }

def treeC3 : FS := .dir "t" [.dir "sub" []]
def treeC5 : FS := .dir "t" [.file "a.txt", .dir "sub" [.file "b.log"]]
def treeC6 : FS := .dir "dirA" [.dir "sub" [.file "file"]]
def treeC9 : FS := .dir "t" [.file "a", .file "b"]

/-!
## Theorems
-/

/-- C1: FALSE ON THE CODE (code bug).  A sub-expression parsed in
suppressed mode must perform no side effect — and indeed the directly
suppressed `-delete` in `-false -a -delete` never fires — but a
parenthesized sub-expression under a suppressed branch is handed to
`_parse_or_expr`, which has no suppressed mode at all, so the actions
inside the parentheses run: evaluating `-false -a ( -print )` prints the
entry even though the enclosing AND short-circuited. -/
theorem c1_suppressed_paren_effect_leak :
    evalTokens cenvX ["-false", "-a", "(", "-print", ")"] 20 =
      .ok false 5 [.print "x"] [] ∧
    evalTokens cenvX ["-false", "-a", "-delete"] 20 = .ok false 3 [] [] :=
  ⟨rfl, rfl⟩

/-- C3: FALSE ON THE CODE (code bug).  In pre-order mode each non-root
directory receives TWO active parse passes — once in the
files-and-subdirectories scan of its parent's iteration (lines 157-165)
and once as the root of its own `os.walk` iteration (line 138) — so the
action side effects replay: walking `t/sub` with `-print` prints `t/sub`
twice. -/
theorem c3_directory_double_evaluation :
    runFindPre wNone ["-print"] 0 none treeC3 "t" 64 =
      some ⟨[.print "t", .print "t/sub", .print "t/sub"], []⟩ ∧
    [Eff.print "t", Eff.print "t/sub", Eff.print "t/sub"].count (Eff.print "t/sub") = 2 :=
  ⟨rfl, rfl⟩

/-- C4, counterexample: the claim fails as stated.  `A -a -false` with
`A = -true -o -true` evaluates to true (the implicit AND binds tighter
than `-o`, so the `-false` attaches to the right OR operand, which is
short-circuited away), and `A -o -true` with `A = -true -a` (which
evaluates fine on its own: a trailing implicit AND with no right operand
is satisfied) raises a syntax error, because the appended `-o` lands in
the hole where the missing operand was expected. -/
theorem c4_short_circuit_counterexample :
    evalTokens cenvX ["-true", "-o", "-true", "-a", "-false"] 20 = .ok true 5 [] [] ∧
    evalTokens cenvX ["-true", "-a", "-o", "-true"] 20 = .err :=
  ⟨rfl, rfl⟩

/-- C5: FALSE ON THE CODE (code bug).  In post-order mode subdirectories
are evaluated under `current_level >= min_depth` — the PARENT's level —
so with mindepth=1, maxdepth=1 on the tree `t/{a.txt, sub/b.log}` the
depth-1 directory `t/sub` is never evaluated (only `t/a.txt` is printed),
although the depth rule says every depth-1 entry is evaluated; pre-order
mode does evaluate both depth-1 entries (and, per C3, evaluates the
directory twice). -/
theorem c5_postorder_mindepth_skips_directories :
    runFindPost wNone ["-print"] 1 (some 1) treeC5 "t" 64 =
      some ⟨[.print "t/a.txt"], []⟩ ∧
    runFindPre wNone ["-print"] 1 (some 1) treeC5 "t" 64 =
      some ⟨[.print "t/a.txt", .print "t/sub", .print "t/sub"], []⟩ :=
  ⟨rfl, rfl⟩

/-- C6: pre-order pruning.  On the tree `dirA/sub/file` with the
expression `-name sub -prune -o -print`, the run prints exactly `dirA`:
`sub` matches, is pruned and (its OR left-hand side being true) not
printed, and nothing strictly under `dirA/sub` is ever evaluated — the
walk iteration rooted at the pruned `dirA/sub` stops before its file
scan. -/
theorem c6_prune_excludes_subtree :
    runFindPre wName ["-name", "sub", "-prune", "-o", "-print"] 0 none treeC6 "dirA" 64 =
      some ⟨[.print "dirA"], ["dirA/sub"]⟩ :=
  rfl

/-- C8: FALSE ON THE CODE (code bug).  `_test_time` calls `datetime.now()`
itself on every invocation, so one run's age comparisons use fresh clock
samples: with a file of mtime 0 and the clock reading 59 s then 61 s, the
two invocations of `-mmin 0` in one run answer true then false — an
outcome no single run-start evaluation time can produce, since the
spec-modelled fixed-time run always answers both invocations alike. -/
theorem c8_evaluation_time_resampled_per_call :
    agePredicateCalls [59, 61] false (fun x => x) (some 0) [['0'], ['0']] 60 =
      [some true, some false] ∧
    ∀ t0 : Int, ∃ b, specFixedAgeCalls t0 false (fun x => x) (some 0) [['0'], ['0']] 60 = [b, b] :=
  ⟨rfl, fun t0 => ⟨test_time false (fun x => x) t0 (some 0) ['0'] 60, rfl⟩⟩


/-- A nonempty character list always has a last character. -/
theorem lastChar_cons (c : Char) (cs : List Char) : ∃ u, lastChar (c :: cs) = some u := by
  induction cs generalizing c with
  | nil => exact ⟨c, rfl⟩
  | cons c2 cs2 ih => exact ih c2

/-- `_test_size` on a vanished entry (failed `os.lstat`) is a non-match,
whatever the (nonempty) size argument says. -/
theorem test_size_vanished (c : Char) (cs : List Char) :
    test_size none (c :: cs) = some false := by
  obtain ⟨u, hu⟩ := lastChar_cons c cs
  simp [test_size, hu]

/-- C9: `_test_newer` stats the reference file first and a missing
reference terminates the whole run via `sys.exit(1)` (non-zero, with a
message on stderr), for every entry; whereas every other metadata-backed
predicate turns a failed lookup on the visited entry into a local
non-match (`False`).  At run level: a fatal `-newer` aborts the walk,
while a world in which a predicate merely answers `False` (as it does for
a vanished entry) lets the run continue through all remaining entries. -/
theorem c9_newer_fatal_other_predicates_recover :
    (∀ entryStat : Option Int, test_newer none entryStat = .exitCode 1) ∧
    (∀ a, test_type none a = false) ∧
    (∀ a, test_perm none a = some false) ∧
    (∀ c cs, test_size none (c :: cs) = some false) ∧
    (∀ (d : Bool) (mid : Int → Int) (now : Int) a u,
      test_time d mid now none a u = some false) ∧
    (∀ a, test_links none a = some false) ∧
    (∀ a, test_inum none a = some false) ∧
    test_empty none = false ∧
    runFindPre wPanic ["-newer", "ref"] 0 none treeC9 "t" 64 = none ∧
    runFindPre wNone ["-links", "1", "-o", "-print"] 0 none treeC9 "t" 64 =
      some ⟨[.print "t", .print "t/a", .print "t/b"], []⟩ := by
  exact ⟨fun _ => rfl, fun _ => rfl, fun _ => rfl, test_size_vanished,
    fun _ _ _ _ _ => rfl, fun _ => rfl, fun _ => rfl, rfl, rfl, rfl⟩

/-- Every character a successful `digitsVal` run consumed is a digit. -/
theorem digitsVal_digits {cs : List Char} {acc n : Nat} (h : digitsVal cs acc = some n) :
    ∀ c ∈ cs, c.isDigit := by
  induction cs generalizing acc with
  | nil => intro c hc; simp at hc
  | cons c0 cs0 ih =>
    intro c2 hc2
    rw [digitsVal] at h
    by_cases hd : c0.isDigit
    · rw [if_pos hd] at h
      rcases List.mem_cons.mp hc2 with rfl | hmem
      · exact hd
      · exact ih h c2 hmem
    · rw [if_neg hd] at h
      exact absurd h (by simp)

/-- A successful `int()` parse means a nonempty all-digit string. -/
theorem parseDigits_digits {cs : List Char} {n : Nat} (h : parseDigits cs = some n) :
    cs ≠ [] ∧ ∀ c ∈ cs, c.isDigit := by
  cases cs with
  | nil => exact absurd h (by simp [parseDigits])
  | cons c cs0 =>
    have h2 : digitsVal (c :: cs0) 0 = some n := h
    exact ⟨by simp, digitsVal_digits h2⟩

/-- A digit is not one of the size-suffix unit characters. -/
theorem isDigit_not_unit {c : Char} (h : c.isDigit = true) :
    (c == 'c' || c == 'w' || c == 'k' || c == 'M' || c == 'G') = false := by
  have h1 : c ≠ 'c' := fun he => by rw [he] at h; exact absurd h (by decide)
  have h2 : c ≠ 'w' := fun he => by rw [he] at h; exact absurd h (by decide)
  have h3 : c ≠ 'k' := fun he => by rw [he] at h; exact absurd h (by decide)
  have h4 : c ≠ 'M' := fun he => by rw [he] at h; exact absurd h (by decide)
  have h5 : c ≠ 'G' := fun he => by rw [he] at h; exact absurd h (by decide)
  simp [h1, h2, h3, h4, h5]

/-- A digit is not a sign character (boolean form). -/
theorem isDigit_not_sign {c : Char} (h : c.isDigit = true) :
    (c == '+' || c == '-') = false := by
  have h1 : c ≠ '+' := fun he => by rw [he] at h; exact absurd h (by decide)
  have h2 : c ≠ '-' := fun he => by rw [he] at h; exact absurd h (by decide)
  simp [h1, h2]

/-- A digit is not a sign character (propositional form). -/
theorem digit_ne_sign {c : Char} (h : c.isDigit = true) : ¬(c = '+' ∨ c = '-') := by
  rintro (rfl | rfl) <;> exact absurd h (by decide)

/-- `lstrip('+-')` leaves an all-digit string unchanged. -/
theorem dropWhile_sign_of_digits {ds : List Char} (h : ∀ c ∈ ds, c.isDigit) :
    (ds.dropWhile fun c => c == '+' || c == '-') = ds := by
  cases ds with
  | nil => rfl
  | cons c cs =>
    have hs := isDigit_not_sign (h c (by simp))
    simp [List.dropWhile_cons, hs]

/-- The last character of a nonempty all-digit string is a digit. -/
theorem lastChar_digit {ds : List Char} (h : ∀ c ∈ ds, c.isDigit) (hne : ds ≠ []) :
    ∃ u, lastChar ds = some u ∧ u.isDigit := by
  induction ds with
  | nil => exact absurd rfl hne
  | cons c cs ih =>
    cases cs with
    | nil => exact ⟨c, rfl, h c (by simp)⟩
    | cons c2 cs2 =>
      exact ih (fun x hx => h x (by simp [List.mem_cons] at hx ⊢; tauto)) (by simp)

/-- C7: `_test_size` with a plain numeric argument (default 512-byte
blocks) converts the byte size to blocks by ceiling division and applies
the signed-N rule: no sign is equality, `+N` strictly greater, `-N`
strictly less. -/
theorem c7_size_ceiling_signed_rule (S N : Nat) (ds : List Char)
    (h : parseDigits ds = some N) :
    test_size (some S) ds = some (decide ((S + 511) / 512 = N)) ∧
    test_size (some S) ('+' :: ds) = some (decide ((S + 511) / 512 > N)) ∧
    test_size (some S) ('-' :: ds) = some (decide ((S + 511) / 512 < N)) := by
  obtain ⟨hne, hdig⟩ := parseDigits_digits h
  obtain ⟨u, hu, hud⟩ := lastChar_digit hdig hne
  have hblocks : S + 512 - 1 = S + 511 := by omega
  cases ds with
  | nil => exact absurd rfl hne
  | cons d ds0 =>
    have hd : d.isDigit := hdig d (by simp)
    have hdrop := dropWhile_sign_of_digits hdig
    refine ⟨?_, ?_, ?_⟩
    · simp only [test_size, hu, isDigit_not_unit hud, Bool.false_eq_true, if_false,
        hdrop, h, hblocks]
      rw [if_neg (digit_ne_sign hd)]
      simp
    · have hu2 : lastChar ('+' :: d :: ds0) = some u := hu
      simp only [test_size, hu2, isDigit_not_unit hud, Bool.false_eq_true, if_false,
        List.dropWhile_cons, hdrop, hblocks]
      simp [h]
    · have hu2 : lastChar ('-' :: d :: ds0) = some u := hu
      simp only [test_size, hu2, isDigit_not_unit hud, Bool.false_eq_true, if_false,
        List.dropWhile_cons, hdrop, hblocks]
      simp [h]

/-- Witness for C7: a file of exactly 513 bytes satisfies `-size 2` and
neither `-size -2` nor `-size +2`. -/
theorem c7_size_witness :
    test_size (some 513) ['2'] = some true ∧
    test_size (some 513) ['+', '2'] = some false ∧
    test_size (some 513) ['-', '2'] = some false := by
  have h := c7_size_ceiling_signed_rule 513 2 ['2'] (by decide)
  exact ⟨h.1.trans (by decide), h.2.1.trans (by decide), h.2.2.trans (by decide)⟩


/-- Decompose a successful `andThen`. -/
theorem andThen_eq_ok {r : PRes} {k : Bool → Nat → PRes} {b : Bool} {p : Nat}
    {e : List Eff} {pr : List String} (h : r.andThen k = .ok b p e pr) :
    ∃ b₁ p₁ e₁ pr₁ e₂ pr₂, r = .ok b₁ p₁ e₁ pr₁ ∧ k b₁ p₁ = .ok b p e₂ pr₂ ∧
      e = e₁ ++ e₂ ∧ pr = pr₁ ++ pr₂ := by
  cases r with
  | ok b₁ p₁ e₁ pr₁ =>
    cases hk : k b₁ p₁ with
    | ok b₂ p₂ e₂ pr₂ =>
      simp only [PRes.andThen, hk] at h
      cases h
      exact ⟨b₁, p₁, e₁, pr₁, e₂, pr₂, rfl, hk, rfl, rfl⟩
    | err => simp [PRes.andThen, hk] at h
    | fatal => simp [PRes.andThen, hk] at h
    | nofuel => simp [PRes.andThen, hk] at h
  | err => simp [PRes.andThen] at h
  | fatal => simp [PRes.andThen] at h
  | nofuel => simp [PRes.andThen] at h

/-- Compose a successful `andThen`. -/
theorem andThen_ok_intro {r : PRes} {k : Bool → Nat → PRes} {b₁ : Bool} {p₁ : Nat}
    {e₁ : List Eff} {pr₁ : List String} {b : Bool} {p : Nat} {e₂ : List Eff}
    {pr₂ : List String} (h₁ : r = .ok b₁ p₁ e₁ pr₁) (h₂ : k b₁ p₁ = .ok b p e₂ pr₂) :
    r.andThen k = .ok b p (e₁ ++ e₂) (pr₁ ++ pr₂) := by
  subst h₁
  simp [PRes.andThen, h₂]


/-- The cursor contract of the dual evaluation mode: whenever an active
(`evaluate=True`) call of a mode-taking parse function (and-expression,
and-loop, not-expression, primary) returns normally, the suppressed
(`evaluate=False`) call on the same stream and position also returns
normally with the SAME final cursor position (the suppressed initial
`left` of the and-loop is irrelevant).  Proved by induction on fuel; the
parenthesized-group branch of the primary is literally the same
expression in both modes (it re-enters the always-active or-parser). -/
theorem mode_preserves_cursor (f : Nat) (env : Env) (ts : List String) :
    (∀ p b p' e pr, parseAnd env ts f true p = .ok b p' e pr →
      ∃ b' e' pr', parseAnd env ts f false p = .ok b' p' e' pr') ∧
    (∀ l l' p b p' e pr, andLoop env ts f true l p = .ok b p' e pr →
      ∃ b' e' pr', andLoop env ts f false l' p = .ok b' p' e' pr') ∧
    (∀ p b p' e pr, parseNot env ts f true p = .ok b p' e pr →
      ∃ b' e' pr', parseNot env ts f false p = .ok b' p' e' pr') ∧
    (∀ p b p' e pr, parsePrim env ts f true p = .ok b p' e pr →
      ∃ b' e' pr', parsePrim env ts f false p = .ok b' p' e' pr') := by
  induction f with
  | zero =>
    refine ⟨?_, ?_, ?_, ?_⟩
    · intro p b p' e pr h
      simp [parseAnd] at h
    · intro l l' p b p' e pr h
      simp [andLoop] at h
    · intro p b p' e pr h
      simp [parseNot] at h
    · intro p b p' e pr h
      simp [parsePrim] at h
  | succ f ih =>
    obtain ⟨ihA, ihL, ihN, ihP⟩ := ih
    have hP : ∀ p b p' e pr, parsePrim env ts (f+1) true p = .ok b p' e pr →
        ∃ b' e' pr', parsePrim env ts (f+1) false p = .ok b' p' e' pr' := by
      intro p b p' e pr h
      cases htok : ts[p]? with
      | none =>
        simp only [parsePrim, htok] at h
        cases h
        exact ⟨true, [], [], by simp [parsePrim, htok]⟩
      | some t =>
        by_cases hpar : t = "("
        · subst hpar
          have heq : parsePrim env ts (f+1) false p = parsePrim env ts (f+1) true p := by
            simp only [parsePrim, htok, if_true]
          exact ⟨b, e, pr, heq.trans h⟩
        · by_cases htst : t ∈ testNames
          · rcases hcc : consumeCount ts (p+1) (numArgs t) with ⟨args, p₁⟩
            simp only [parsePrim, htok, if_neg hpar, if_pos htst, hcc] at h
            cases hto : testOutcome env t args with
            | ok b0 e0 pr0 =>
              simp only [hto] at h
              cases h
              exact ⟨true, [], [],
                by simp only [parsePrim, htok, if_neg hpar, if_pos htst, hcc]; simp⟩
            | err => simp [hto] at h
            | fatal => simp [hto] at h
          · by_cases hact : t ∈ actionNames
            · by_cases hex : t = "-exec" ∨ t = "-ok" ∨ t = "-execdir" ∨ t = "-okdir"
              · simp only [parsePrim, htok, if_neg hpar, if_neg htst, if_pos hact,
                  if_pos hex] at h
                cases hcs : collectUntilSemi (ts.drop (p+1)) with
                | none => simp [hcs] at h
                | some pair =>
                  rcases pair with ⟨args, n⟩
                  simp only [hcs] at h
                  cases hra : runAction env t (args.map some) with
                  | ok b0 e0 pr0 =>
                    simp only [hra] at h
                    cases h
                    exact ⟨true, [], [],
                      by simp only [parsePrim, htok, if_neg hpar, if_neg htst,
                        if_pos hact, if_pos hex, hcs]; simp⟩
                  | err => simp [hra] at h
                  | fatal => simp [hra] at h
              · rcases hcc : consumeCount ts (p+1) (numArgs t) with ⟨args, p₁⟩
                simp only [parsePrim, htok, if_neg hpar, if_neg htst, if_pos hact,
                  if_neg hex, hcc] at h
                cases hra : runAction env t args with
                | ok b0 e0 pr0 =>
                  simp only [hra] at h
                  cases h
                  exact ⟨true, [], [],
                    by simp only [parsePrim, htok, if_neg hpar, if_neg htst,
                      if_pos hact, if_neg hex, hcc]; simp⟩
                | err => simp [hra] at h
                | fatal => simp [hra] at h
            · simp [parsePrim, htok, if_neg hpar, if_neg htst, if_neg hact] at h
    have hN : ∀ p b p' e pr, parseNot env ts (f+1) true p = .ok b p' e pr →
        ∃ b' e' pr', parseNot env ts (f+1) false p = .ok b' p' e' pr' := by
      intro p b p' e pr h
      by_cases hb : ts[p]? = some "!" ∨ ts[p]? = some "-not"
      · simp only [parseNot, if_pos hb, Bool.not_true, Bool.false_eq_true, if_false] at h
        obtain ⟨b₁, p₁, e₁, pr₁, e₂, pr₂, h₁, h₂, he, hpr⟩ := andThen_eq_ok h
        obtain ⟨b₃, e₃, pr₃, h₃⟩ := ihP _ _ _ _ _ h₁
        cases h₂
        refine ⟨false, e₃ ++ [], pr₃ ++ [], ?_⟩
        simp only [parseNot, if_pos hb, Bool.not_false, if_true]
        exact andThen_ok_intro h₃ rfl
      · simp only [parseNot, if_neg hb] at h ⊢
        exact ihP p b p' e pr h
    have hL : ∀ l l' p b p' e pr, andLoop env ts (f+1) true l p = .ok b p' e pr →
        ∃ b' e' pr', andLoop env ts (f+1) false l' p = .ok b' p' e' pr' := by
      intro l l' p b p' e pr h
      cases htok : ts[p]? with
      | none =>
        simp only [andLoop, htok] at h
        cases h
        exact ⟨l', [], [], by simp [andLoop, htok]⟩
      | some t =>
        by_cases hstop : t = "-o" ∨ t = "-or" ∨ t = ")" ∨ t = ","
        · simp only [andLoop, htok, if_pos hstop] at h
          cases h
          exact ⟨l', [], [], by simp [andLoop, htok, if_pos hstop]⟩
        · simp only [andLoop, htok, if_neg hstop] at h
          cases l with
          | false =>
            simp only [Bool.not_true, Bool.not_false, Bool.false_or, Bool.or_true,
              if_true] at h
            obtain ⟨b₁, p₁, e₁, pr₁, e₂, pr₂, h₁, h₂, he, hpr⟩ := andThen_eq_ok h
            obtain ⟨b₃, e₃, pr₃, h₃⟩ := ihL false false _ _ _ _ _ h₂
            refine ⟨b₃, e₁ ++ e₃, pr₁ ++ pr₃, ?_⟩
            simp only [andLoop, htok, if_neg hstop, Bool.not_false, Bool.true_or, if_true]
            exact andThen_ok_intro h₁ h₃
          | true =>
            simp only [Bool.not_true, Bool.or_self, Bool.false_eq_true, if_false,
              Bool.true_and] at h
            obtain ⟨b₁, p₁, e₁, pr₁, e₂, pr₂, h₁, h₂, he, hpr⟩ := andThen_eq_ok h
            obtain ⟨b₃, e₃, pr₃, h₃⟩ := ihN _ _ _ _ _ h₁
            obtain ⟨b₄, e₄, pr₄, h₄⟩ := ihL b₁ false _ _ _ _ _ h₂
            refine ⟨b₄, e₃ ++ e₄, pr₃ ++ pr₄, ?_⟩
            simp only [andLoop, htok, if_neg hstop, Bool.not_false, Bool.true_or, if_true]
            exact andThen_ok_intro h₃ h₄
    have hA : ∀ p b p' e pr, parseAnd env ts (f+1) true p = .ok b p' e pr →
        ∃ b' e' pr', parseAnd env ts (f+1) false p = .ok b' p' e' pr' := by
      intro p b p' e pr h
      simp only [parseAnd] at h
      obtain ⟨b₁, p₁, e₁, pr₁, e₂, pr₂, h₁, h₂, he, hpr⟩ := andThen_eq_ok h
      obtain ⟨b₃, e₃, pr₃, h₃⟩ := ihN _ _ _ _ _ h₁
      obtain ⟨b₄, e₄, pr₄, h₄⟩ := ihL b₁ b₃ _ _ _ _ _ h₂
      refine ⟨b₄, e₃ ++ e₄, pr₃ ++ pr₄, ?_⟩
      simp only [parseAnd]
      exact andThen_ok_intro h₃ h₄
    exact ⟨hA, hL, hN, hP⟩


/-- C2: each mode-taking parse function (and-expression, not-expression,
primary) advances the shared cursor by exactly the same amount in
suppressed mode (`evaluate=False`) as in active mode (`evaluate=True`) on
the same token stream and starting position, whenever the active call
returns normally (no raised error, no run-terminating `sys.exit`). -/
theorem c2_suppressed_mode_advances_cursor_identically (f : Nat) (env : Env)
    (ts : List String) (p : Nat) (b : Bool) (p' : Nat) (e : List Eff)
    (pr : List String) :
    (parseAnd env ts f true p = .ok b p' e pr →
      ∃ b' e' pr', parseAnd env ts f false p = .ok b' p' e' pr') ∧
    (parseNot env ts f true p = .ok b p' e pr →
      ∃ b' e' pr', parseNot env ts f false p = .ok b' p' e' pr') ∧
    (parsePrim env ts f true p = .ok b p' e pr →
      ∃ b' e' pr', parsePrim env ts f false p = .ok b' p' e' pr') := by
  obtain ⟨hA, hL, hN, hP⟩ := mode_preserves_cursor f env ts
  exact ⟨hA p b p' e pr, hN p b p' e pr, hP p b p' e pr⟩

/-- Witness for C2: on the stream `-true -print` the active and-expression
parse ends with the cursor at 2, and so does the suppressed parse. -/
theorem c2_cursor_witness :
    parseAnd cenvX ["-true", "-print"] 5 true 0 = .ok true 2 [.print "x"] [] ∧
    (∃ b' e' pr', parseAnd cenvX ["-true", "-print"] 5 false 0 = .ok b' 2 e' pr') := by
  have h : parseAnd cenvX ["-true", "-print"] 5 true 0 = .ok true 2 [.print "x"] [] := rfl
  exact ⟨h, (c2_suppressed_mode_advances_cursor_identically 5 cenvX ["-true", "-print"]
    0 true 2 [.print "x"] []).1 h⟩

def PrunesOk (env : Env) (r : PRes) : Prop :=
  ∀ b p e pr, r = .ok b p e pr → ∀ x ∈ pr, x = env.path ∧ env.isDir = true

theorem prunesOk_ok_nil {env : Env} {b : Bool} {p : Nat} {e : List Eff} :
    PrunesOk env (.ok b p e []) := by
  intro b' p' e' pr' h
  cases h
  simp

theorem prunesOk_err {env : Env} : PrunesOk env .err := by
  intro b' p' e' pr' h
  cases h

theorem prunesOk_fatal {env : Env} : PrunesOk env .fatal := by
  intro b' p' e' pr' h
  cases h

theorem prunesOk_andThen {env : Env} {r : PRes} {k : Bool → Nat → PRes}
    (h₁ : PrunesOk env r) (h₂ : ∀ b p, PrunesOk env (k b p)) :
    PrunesOk env (r.andThen k) := by
  intro b p e pr h
  obtain ⟨b₁, p₁, e₁, pr₁, e₂, pr₂, hr, hk, he, hpr⟩ := andThen_eq_ok h
  subst hpr
  intro x hx
  rcases List.mem_append.mp hx with hm | hm
  · exact h₁ _ _ _ _ hr x hm
  · exact h₂ _ _ _ _ _ _ hk x hm

theorem testOutcome_prunes {env : Env} {t : String} {args : List (Option String)}
    {b : Bool} {e : List Eff} {pr : List String}
    (h : testOutcome env t args = .ok b e pr) : pr = [] := by
  unfold testOutcome at h
  split at h <;> try split at h <;> try split at h <;> try split at h
  all_goals simp_all

theorem runAction_prunes {env : Env} {name : String} {args : List (Option String)}
    {b : Bool} {e : List Eff} {pr : List String}
    (h : runAction env name args = .ok b e pr) :
    ∀ x ∈ pr, x = env.path ∧ env.isDir = true := by
  unfold runAction at h
  split at h <;> first
    | (cases h; intro x hx; simp at hx; try exact ⟨hx.2, hx.1⟩)
    | cases h

theorem runAction_prunes_ne {env : Env} {name : String} {args : List (Option String)}
    {b : Bool} {e : List Eff} {pr : List String}
    (h : runAction env name args = .ok b e pr) (hn : name ≠ "-prune") : pr = [] := by
  unfold runAction at h
  split at h <;> first
    | exact absurd rfl hn
    | (cases h; try rfl)

/-- Prune-set discipline of the whole expression evaluator: every path a
parse adds to the prune set is the evaluated entry's own path, and only
when that entry is a directory (the only writer is `_action_prune`). -/
theorem prunes_only_dir_path (f : Nat) (env : Env) (ts : List String) :
    (∀ p, PrunesOk env (parseOr env ts f p)) ∧
    (∀ l p, PrunesOk env (orLoop env ts f l p)) ∧
    (∀ ev p, PrunesOk env (parseAnd env ts f ev p)) ∧
    (∀ ev l p, PrunesOk env (andLoop env ts f ev l p)) ∧
    (∀ ev p, PrunesOk env (parseNot env ts f ev p)) ∧
    (∀ ev p, PrunesOk env (parsePrim env ts f ev p)) := by
  induction f with
  | zero =>
    refine ⟨?_, ?_, ?_, ?_, ?_, ?_⟩ <;>
      · intros
        intro b' p' e' pr' h
        simp [parseOr, orLoop, parseAnd, andLoop, parseNot, parsePrim] at h
  | succ f ih =>
    obtain ⟨ihO, ihOL, ihA, ihL, ihN, ihP⟩ := ih
    have hP : ∀ ev p, PrunesOk env (parsePrim env ts (f+1) ev p) := by
      intro ev p
      cases htok : ts[p]? with
      | none =>
        simp only [parsePrim, htok]
        exact prunesOk_ok_nil
      | some t =>
        by_cases hpar : t = "("
        · subst hpar
          simp only [parsePrim, htok, if_true]
          refine prunesOk_andThen (ihO _) ?_
          intro res p₁
          by_cases hrp : ts[p₁]? = some ")"
          · simp only [if_pos hrp]
            exact prunesOk_ok_nil
          · simp only [if_neg hrp]
            exact prunesOk_err
        · by_cases htst : t ∈ testNames
          · rcases hcc : consumeCount ts (p+1) (numArgs t) with ⟨args, p₁⟩
            simp only [parsePrim, htok, if_neg hpar, if_pos htst, hcc]
            cases ev with
            | false =>
              simp only [Bool.false_eq_true, if_false]
              exact prunesOk_ok_nil
            | true =>
              simp only [if_true]
              cases hto : testOutcome env t args with
              | ok b0 e0 pr0 =>
                simp only [hto]
                have hpr0 := testOutcome_prunes hto
                subst hpr0
                exact prunesOk_ok_nil
              | err =>
                simp only [hto]
                exact prunesOk_err
              | fatal =>
                simp only [hto]
                exact prunesOk_fatal
          · by_cases hact : t ∈ actionNames
            · by_cases hex : t = "-exec" ∨ t = "-ok" ∨ t = "-execdir" ∨ t = "-okdir"
              · simp only [parsePrim, htok, if_neg hpar, if_neg htst, if_pos hact,
                  if_pos hex]
                cases hcs : collectUntilSemi (ts.drop (p+1)) with
                | none =>
                  simp only [hcs]
                  exact prunesOk_err
                | some pair =>
                  rcases pair with ⟨args, n⟩
                  simp only [hcs]
                  cases ev with
                  | false =>
                    simp only [Bool.false_eq_true, if_false]
                    exact prunesOk_ok_nil
                  | true =>
                    simp only [if_true]
                    cases hra : runAction env t (args.map some) with
                    | ok b0 e0 pr0 =>
                      simp only [hra]
                      intro b' p' e' pr' hh
                      cases hh
                      exact runAction_prunes hra
                    | err =>
                      simp only [hra]
                      exact prunesOk_err
                    | fatal =>
                      simp only [hra]
                      exact prunesOk_fatal
              · rcases hcc : consumeCount ts (p+1) (numArgs t) with ⟨args, p₁⟩
                simp only [parsePrim, htok, if_neg hpar, if_neg htst, if_pos hact,
                  if_neg hex, hcc]
                cases ev with
                | false =>
                  simp only [Bool.false_eq_true, if_false]
                  exact prunesOk_ok_nil
                | true =>
                  simp only [if_true]
                  cases hra : runAction env t args with
                  | ok b0 e0 pr0 =>
                    simp only [hra]
                    intro b' p' e' pr' hh
                    cases hh
                    exact runAction_prunes hra
                  | err =>
                    simp only [hra]
                    exact prunesOk_err
                  | fatal =>
                    simp only [hra]
                    exact prunesOk_fatal
            · simp only [parsePrim, htok, if_neg hpar, if_neg htst, if_neg hact]
              exact prunesOk_err
    have hN : ∀ ev p, PrunesOk env (parseNot env ts (f+1) ev p) := by
      intro ev p
      by_cases hb : ts[p]? = some "!" ∨ ts[p]? = some "-not"
      · cases ev with
        | false =>
          simp only [parseNot, if_pos hb, Bool.not_false, if_true]
          exact prunesOk_andThen (ihP _ _) fun _ _ => prunesOk_ok_nil
        | true =>
          simp only [parseNot, if_pos hb, Bool.not_true, Bool.false_eq_true, if_false]
          exact prunesOk_andThen (ihP _ _) fun _ _ => prunesOk_ok_nil
      · simp only [parseNot, if_neg hb]
        exact ihP _ _
    have hL : ∀ ev l p, PrunesOk env (andLoop env ts (f+1) ev l p) := by
      intro ev l p
      cases htok : ts[p]? with
      | none =>
        simp only [andLoop, htok]
        exact prunesOk_ok_nil
      | some t =>
        by_cases hstop : t = "-o" ∨ t = "-or" ∨ t = ")" ∨ t = ","
        · simp only [andLoop, htok, if_pos hstop]
          exact prunesOk_ok_nil
        · simp only [andLoop, htok, if_neg hstop]
          cases hbv : (!ev || !l) with
          | true =>
            simp only [hbv, if_true]
            exact prunesOk_andThen (ihN _ _) fun _ q => ihL _ _ q
          | false =>
            simp only [hbv, Bool.false_eq_true, if_false]
            exact prunesOk_andThen (ihN _ _) fun r q => ihL _ _ q
    have hA : ∀ ev p, PrunesOk env (parseAnd env ts (f+1) ev p) := by
      intro ev p
      simp only [parseAnd]
      exact prunesOk_andThen (ihN _ _) fun b q => ihL _ _ q
    have hOL : ∀ l p, PrunesOk env (orLoop env ts (f+1) l p) := by
      intro l p
      by_cases ho : ts[p]? = some "-o" ∨ ts[p]? = some "-or"
      · cases l with
        | true =>
          simp only [orLoop, if_pos ho, if_true]
          exact prunesOk_andThen (ihA _ _) fun _ _ => prunesOk_ok_nil
        | false =>
          simp only [orLoop, if_pos ho, Bool.false_eq_true, if_false]
          exact prunesOk_andThen (ihA _ _) fun r q => ihOL _ q
      · simp only [orLoop, if_neg ho]
        exact prunesOk_ok_nil
    have hO : ∀ p, PrunesOk env (parseOr env ts (f+1) p) := by
      intro p
      simp only [parseOr]
      exact prunesOk_andThen (ihA _ _) fun left q => ihOL _ q
    exact ⟨hO, hOL, hA, hL, hN, hP⟩

/-- C10: applying the prune action to a non-directory entry returns true
and adds nothing to the prune set; every path the expression evaluator
ever adds to the prune set is the evaluated entry's own path and only when
that entry is a directory; and no action other than `-prune` contributes
prune paths. -/
theorem c10_prune_set_discipline :
    (∀ (path : String) (confirm : Bool) test testErr testFatal
        (args : List (Option String)),
      runAction ⟨path, false, confirm, test, testErr, testFatal⟩ "-prune" args =
        .ok true [] []) ∧
    (∀ f env ts p b p' e pr, parseOr env ts f p = .ok b p' e pr →
      ∀ x ∈ pr, x = env.path ∧ env.isDir = true) ∧
    (∀ env name args b e pr, runAction env name args = .ok b e pr →
      name ≠ "-prune" → pr = []) := by
  refine ⟨fun path confirm test testErr testFatal args => rfl, ?_, ?_⟩
  · intro f env ts p b p' e pr h
    exact (prunes_only_dir_path f env ts).1 p b p' e pr h
  · intro env name args b e pr h hn
    exact runAction_prunes_ne h hn

/-- Witness for C10: the one-token run `-prune` on the directory entry `d`
prunes exactly `d` (its own path, a directory), and the non-prune action
`-print` contributes no prune paths. -/
theorem c10_prune_witness :
    ("d" = penvD.path ∧ penvD.isDir = true) ∧ (([] : List String) = []) :=
  ⟨c10_prune_set_discipline.2.1 5 penvD ["-prune"] 0 true 1 [] ["d"] rfl "d"
      (by simp),
   c10_prune_set_discipline.2.2 penvD "-print" [] true [.print "d"] [] rfl
      (by decide)⟩


/-- Index arithmetic: the `i`-th token after a parenthesized group body. -/
theorem getElem_after_group (a : String) (A l3 : List String) (i : Nat) :
    (a :: (A ++ l3))[A.length + 1 + i]? = l3[i]? := by
  have h1 : A.length + 1 + i = (A.length + i) + 1 := by omega
  rw [h1, List.getElem?_cons_succ, List.getElem?_append_right (by omega)]
  congr 1
  omega

/-- C4 (amended): the short-circuit identities hold with the sub-expression
parenthesized: whenever the active parse of the group body `A` (entered at
position 1, right after the opening parenthesis) returns normally with the
cursor at the closing parenthesis, `( A ) -o -true` evaluates to true and
`( A ) -a -false` evaluates to false — with exactly the body's side
effects, whatever boolean the body produced.  (As originally stated, over
a bare `A`, both identities fail; see the counterexample theorem.) -/
theorem c4_parenthesized_short_circuit_identities (f : Nat) (env : Env)
    (A : List String) (v : Bool) (e : List Eff) (pr : List String) :
    (parseOr env ("(" :: (A ++ [")", "-o", "-true"])) (f+1) 1 =
      .ok v (A.length + 1) e pr →
    parseOr env ("(" :: (A ++ [")", "-o", "-true"])) (f+5) 0 =
      .ok true (A.length + 4) e pr) ∧
    (parseOr env ("(" :: (A ++ [")", "-a", "-false"])) (f+1) 1 =
      .ok v (A.length + 1) e pr →
    parseOr env ("(" :: (A ++ [")", "-a", "-false"])) (f+5) 0 =
      .ok false (A.length + 4) e pr) := by
  constructor
  · intro h

    have hts1 : ("(" :: (A ++ [")", "-o", "-true"]))[A.length + 1]? = some ")" := by
      simpa using getElem_after_group "(" A [")", "-o", "-true"] 0
    have hts2 : ("(" :: (A ++ [")", "-o", "-true"]))[A.length + 2]? = some "-o" := by
      simpa [show A.length + 1 + 1 = A.length + 2 from by omega] using
        getElem_after_group "(" A [")", "-o", "-true"] 1
    have hts3 : ("(" :: (A ++ [")", "-o", "-true"]))[A.length + 3]? = some "-true" := by
      simpa [show A.length + 1 + 2 = A.length + 3 from by omega] using
        getElem_after_group "(" A [")", "-o", "-true"] 2
    have hts4 : ("(" :: (A ++ [")", "-o", "-true"]))[A.length + 4]? = none := by
      simpa [show A.length + 1 + 3 = A.length + 4 from by omega] using
        getElem_after_group "(" A [")", "-o", "-true"] 3
    have e1 : parsePrim env ("(" :: (A ++ [")", "-o", "-true"])) (f+2) true 0 =
        .ok v (A.length + 2) e pr := by
      show parsePrim env ("(" :: (A ++ [")", "-o", "-true"])) ((f+1)+1) true 0 = _
      simp only [parsePrim, List.getElem?_cons_zero, if_true, h, PRes.andThen, hts1,
        List.append_nil]
    have e2 : parseNot env ("(" :: (A ++ [")", "-o", "-true"])) (f+3) true 0 =
        .ok v (A.length + 2) e pr := by
      show parseNot env ("(" :: (A ++ [")", "-o", "-true"])) ((f+2)+1) true 0 = _
      rw [parseNot, if_neg (by simp)]
      exact e1
    have eLoop : andLoop env ("(" :: (A ++ [")", "-o", "-true"])) (f+3) true v
        (A.length + 2) = .ok v (A.length + 2) [] [] := by
      show andLoop env _ ((f+2)+1) true v _ = _
      simp only [andLoop, hts2]
      rw [if_pos (by simp)]
    have e3 : parseAnd env ("(" :: (A ++ [")", "-o", "-true"])) (f+4) true 0 =
        .ok v (A.length + 2) e pr := by
      show parseAnd env _ ((f+3)+1) true 0 = _
      rw [parseAnd, e2]
      simp only [PRes.andThen, eLoop, List.append_nil]
    have etrue_prim : ∀ m : Bool, parsePrim env ("(" :: (A ++ [")", "-o", "-true"]))
        (f+1) m (A.length + 3) = .ok true (A.length + 4) [] [] := by
      intro m
      have hcc : consumeCount ("(" :: (A ++ [")", "-o", "-true"])) (A.length + 4)
          (numArgs "-true") = ([], A.length + 4) := by
        have hz : numArgs "-true" = 0 := by decide
        rw [hz]
        rfl
      have hto : testOutcome env "-true" [] = .ok true [] [] := rfl
      cases m with
      | false =>
        simp only [parsePrim, hts3]
        rw [if_neg (by decide), if_pos (by decide)]
        simp only [hcc]
        simp
      | true =>
        simp only [parsePrim, hts3]
        rw [if_neg (by decide), if_pos (by decide)]
        simp only [hcc, hto, if_true]
    have eAndTrue : ∀ m : Bool, parseAnd env ("(" :: (A ++ [")", "-o", "-true"])) (f+3) m
        (A.length + 3) = .ok true (A.length + 4) [] [] := by
      intro m
      have hnot : parseNot env ("(" :: (A ++ [")", "-o", "-true"])) (f+2) m
          (A.length + 3) = .ok true (A.length + 4) [] [] := by
        show parseNot env _ ((f+1)+1) m _ = _
        rw [parseNot, if_neg (by simp [hts3])]
        exact etrue_prim m
      have hloop : andLoop env ("(" :: (A ++ [")", "-o", "-true"])) (f+2) m true
          (A.length + 4) = .ok true (A.length + 4) [] [] := by
        show andLoop env _ ((f+1)+1) m true _ = _
        simp only [andLoop, hts4]
      show parseAnd env _ ((f+2)+1) m _ = _
      rw [parseAnd, hnot]
      simp only [PRes.andThen, hloop, List.append_nil]
    have e4 : orLoop env ("(" :: (A ++ [")", "-o", "-true"])) (f+4) v (A.length + 2) =
        .ok true (A.length + 4) [] [] := by
      show orLoop env _ ((f+3)+1) v _ = _
      rw [orLoop, if_pos (Or.inl hts2)]
      have harith : A.length + 2 + 1 = A.length + 3 := by omega
      cases v with
      | false =>
        have hnext : orLoop env ("(" :: (A ++ [")", "-o", "-true"])) (f+3) true
            (A.length + 4) = .ok true (A.length + 4) [] [] := by
          show orLoop env _ ((f+2)+1) true _ = _
          rw [orLoop, if_neg (by simp [hts4])]
        simp only [Bool.false_eq_true, if_false, harith]
        rw [eAndTrue true]
        simp only [PRes.andThen, Bool.false_or, hnext, List.append_nil]
      | true =>
        simp only [if_true, harith]
        rw [eAndTrue false]
        simp only [PRes.andThen, List.append_nil]
    show parseOr env _ ((f+4)+1) 0 = _
    rw [parseOr, e3]
    simp only [PRes.andThen, e4, List.append_nil]
  · intro h

    have hts1 : ("(" :: (A ++ [")", "-a", "-false"]))[A.length + 1]? = some ")" := by
      simpa using getElem_after_group "(" A [")", "-a", "-false"] 0
    have hts2 : ("(" :: (A ++ [")", "-a", "-false"]))[A.length + 2]? = some "-a" := by
      simpa [show A.length + 1 + 1 = A.length + 2 from by omega] using
        getElem_after_group "(" A [")", "-a", "-false"] 1
    have hts3 : ("(" :: (A ++ [")", "-a", "-false"]))[A.length + 3]? = some "-false" := by
      simpa [show A.length + 1 + 2 = A.length + 3 from by omega] using
        getElem_after_group "(" A [")", "-a", "-false"] 2
    have hts4 : ("(" :: (A ++ [")", "-a", "-false"]))[A.length + 4]? = none := by
      simpa [show A.length + 1 + 3 = A.length + 4 from by omega] using
        getElem_after_group "(" A [")", "-a", "-false"] 3
    have e1 : parsePrim env ("(" :: (A ++ [")", "-a", "-false"])) (f+2) true 0 =
        .ok v (A.length + 2) e pr := by
      show parsePrim env ("(" :: (A ++ [")", "-a", "-false"])) ((f+1)+1) true 0 = _
      simp only [parsePrim, List.getElem?_cons_zero, if_true, h, PRes.andThen, hts1,
        List.append_nil]
    have e2 : parseNot env ("(" :: (A ++ [")", "-a", "-false"])) (f+3) true 0 =
        .ok v (A.length + 2) e pr := by
      show parseNot env ("(" :: (A ++ [")", "-a", "-false"])) ((f+2)+1) true 0 = _
      rw [parseNot, if_neg (by simp)]
      exact e1
    have efalse_prim_sup : parsePrim env ("(" :: (A ++ [")", "-a", "-false"])) (f+1) false
        (A.length + 3) = .ok true (A.length + 4) [] [] := by
      have hcc : consumeCount ("(" :: (A ++ [")", "-a", "-false"])) (A.length + 4)
          (numArgs "-false") = ([], A.length + 4) := by
        have hz : numArgs "-false" = 0 := by decide
        rw [hz]
        rfl
      simp only [parsePrim, hts3]
      rw [if_neg (by decide), if_pos (by decide)]
      simp only [hcc]
      simp
    have efalse_prim_act : parsePrim env ("(" :: (A ++ [")", "-a", "-false"])) (f+1) true
        (A.length + 3) = .ok false (A.length + 4) [] [] := by
      have hcc : consumeCount ("(" :: (A ++ [")", "-a", "-false"])) (A.length + 4)
          (numArgs "-false") = ([], A.length + 4) := by
        have hz : numArgs "-false" = 0 := by decide
        rw [hz]
        rfl
      have hto : testOutcome env "-false" [] = .ok false [] [] := rfl
      simp only [parsePrim, hts3]
      rw [if_neg (by decide), if_pos (by decide)]
      simp only [hcc, hto, if_true]
    have eLoopTail : ∀ l : Bool, andLoop env ("(" :: (A ++ [")", "-a", "-false"])) (f+2)
        true l (A.length + 4) = .ok l (A.length + 4) [] [] := by
      intro l
      show andLoop env _ ((f+1)+1) true l _ = _
      simp only [andLoop, hts4]
    have hnotS : parseNot env ("(" :: (A ++ [")", "-a", "-false"])) (f+2) false
        (A.length + 3) = .ok true (A.length + 4) [] [] := by
      show parseNot env _ ((f+1)+1) false _ = _
      rw [parseNot, if_neg (by simp [hts3])]
      exact efalse_prim_sup
    have hnotA : parseNot env ("(" :: (A ++ [")", "-a", "-false"])) (f+2) true
        (A.length + 3) = .ok false (A.length + 4) [] [] := by
      show parseNot env _ ((f+1)+1) true _ = _
      rw [parseNot, if_neg (by simp [hts3])]
      exact efalse_prim_act
    have eLoop2 : andLoop env ("(" :: (A ++ [")", "-a", "-false"])) (f+3) true v
        (A.length + 2) = .ok false (A.length + 4) [] [] := by
      show andLoop env _ ((f+2)+1) true v _ = _
      rw [andLoop]
      simp only [hts2]
      rw [if_neg (by decide)]
      simp only [true_or, if_true]
      rw [show A.length + 2 + 1 = A.length + 3 from by omega]
      cases v with
      | false =>
        simp only [Bool.not_true, Bool.not_false, Bool.false_or, Bool.or_true, if_true]
        rw [hnotS]
        simp only [PRes.andThen, eLoopTail false, List.append_nil]
      | true =>
        simp only [Bool.not_true, Bool.or_self, Bool.false_eq_true, if_false]
        rw [hnotA]
        simp only [PRes.andThen, Bool.true_and, eLoopTail false, List.append_nil]
    have e3 : parseAnd env ("(" :: (A ++ [")", "-a", "-false"])) (f+4) true 0 =
        .ok false (A.length + 4) e pr := by
      show parseAnd env _ ((f+3)+1) true 0 = _
      rw [parseAnd, e2]
      simp only [PRes.andThen, eLoop2, List.append_nil]
    have e4 : orLoop env ("(" :: (A ++ [")", "-a", "-false"])) (f+4) false
        (A.length + 4) = .ok false (A.length + 4) [] [] := by
      show orLoop env _ ((f+3)+1) false _ = _
      rw [orLoop, if_neg (by simp [hts4])]
    show parseOr env _ ((f+4)+1) 0 = _
    rw [parseOr, e3]
    simp only [PRes.andThen, e4, List.append_nil]

/-- Witness for C4 (amended) at the concrete body `A = -true`. -/
theorem c4_identities_witness :
    parseOr cenvX ["(", "-true", ")", "-o", "-true"] 8 0 = .ok true 5 [] [] ∧
    parseOr cenvX ["(", "-true", ")", "-a", "-false"] 8 0 = .ok false 5 [] [] :=
  ⟨(c4_parenthesized_short_circuit_identities 3 cenvX ["-true"] true [] []).1 rfl,
   (c4_parenthesized_short_circuit_identities 3 cenvX ["-true"] true [] []).2 rfl⟩

end FindMimic
